import Mathlib

/-!
Verification of the iac-recert-engine pipeline against its specification.

Shallow embedding conventions:
- Instants are `Int` nanoseconds counted from Go's zero `time.Time`
  (0001-01-01T00:00:00 UTC), so the zero value of `time.Time` is `0` and
  `t1.After t2` is `t2 < t1`.  `time.Since(t)` executed when the ambient
  clock reads `now` is `now - t`.  `AddDate(0, 0, n)` is `+ n * nsPerDay`.
- `doublestar` glob matching is abstracted as an arbitrary function
  `PathMatcher` from (pattern, path) to `Bool`; a pattern whose match errors
  in Go is one on which the matcher returns `false` (the source treats
  `err != nil` as a non-match).  File paths are taken repo-relative, so
  `filepath.Rel` is the identity.
- Remote backends (the provider gateway, the git history lookup, assignment
  plugins) are oracles passed in as functions returning `Except`/`Option`.
- Go's `int(x)` on a float truncates toward zero, hence `Int.tdiv` below.
  Go's float64 ratio comparisons against 0.8 / 1.0 / 1.5 are encoded as the
  exact integer inequalities 5d ≥ 4t, d ≥ t, 2d > 3t; for 1 ≤ t (the range
  the configuration validator admits and all claims assume) these coincide
  with the float64 comparisons the source performs.
-/

namespace IacRecert

/-- Nanoseconds per day (24h); Go durations are int64 nanoseconds. -/
def nsPerDay : Int := 86400 * 1000000000

/-- types.FileInfo (internal/types/types.go). -/
structure FileInfo where
  path : String
  size : Int
  lastModified : Int
  commitHash : String
  commitAuthor : String
  commitEmail : String
  commitMsg : String
deriving DecidableEq, Repr

/-- config.Pattern (internal/config/types.go). -/
structure Pattern where
  name : String
  paths : List String
  exclude : List String
  recertificationDays : Int
  enabled : Bool
deriving DecidableEq, Repr

/-- types.RecertCheckResult (internal/types/types.go). -/
structure RecertCheckResult where
  file : FileInfo
  patternName : String
  daysSince : Int
  threshold : Int
  priority : String
  needsRecert : Bool
  nextDueDate : Int
deriving DecidableEq, Repr

/-- types.FileGroup (internal/types/types.go); the Assignees/Reviewers fields
are never set by the grouping strategies and are omitted. -/
structure FileGroup where
  id : String
  strategy : String
  files : List RecertCheckResult
deriving DecidableEq, Repr

/-- types.AssignmentResult (internal/types/types.go). -/
structure AssignmentResult where
  assignees : List String
  reviewers : List String
  team : String
  priority : String
deriving DecidableEq, Repr

/-- types.Change (internal/types/types.go). -/
structure Change where
  path : String
  content : String
deriving DecidableEq, Repr

/-- Abstraction of doublestar.PathMatch: matcher pattern path. -/
def PathMatcher : Type := String → String → Bool

/-! ## Staleness evaluator (internal/scan/recert_checker.go, Checker.Check) -/

/-- The include-glob loop of Checker.Check: the file matches when at least one
entry of pattern.Paths matches. -/
def patternMatches (pm : PathMatcher) (pat : Pattern) (relPath : String) : Bool :=
  pat.paths.any (fun p => pm p relPath)

/-- The exclusion loop of Checker.Check: the file is excluded when at least one
entry of pattern.Exclude matches. -/
def patternExcludes (pm : PathMatcher) (pat : Pattern) (relPath : String) : Bool :=
  pat.exclude.any (fun ex => pm ex relPath)

/-- The pattern-selection loop of Checker.Check: first enabled pattern whose
includes match and whose excludes do not. -/
def firstMatch (pm : PathMatcher) (patterns : List Pattern) (relPath : String) :
    Option Pattern :=
  patterns.find? (fun pat =>
    pat.enabled && patternMatches pm pat relPath && !patternExcludes pm pat relPath)

/-- daysSince := int(time.Since(file.LastModified).Hours() / 24), where the
ambient clock reads now.  Go int conversion truncates toward zero. -/
def daysSinceFn (now lastModified : Int) : Int :=
  (now - lastModified).tdiv nsPerDay

/-- The priority ladder of Checker.Check.  ratio = float64(daysSince) /
float64(threshold); for threshold ≥ 1 the float64 comparisons below are exactly
ratio > 1.5, ratio ≥ 1.0, ratio ≥ 0.8. -/
def priorityFor (daysSince threshold : Int) (needsRecert : Bool) : String :=
  if needsRecert then
    if 2 * daysSince > 3 * threshold then "Critical"
    else if daysSince ≥ threshold then "High"
    else if 5 * daysSince ≥ 4 * threshold then "Medium"
    else "Low"
  else
    if 5 * daysSince ≥ 4 * threshold then "Medium"
    else "Low"

/-- The per-file verdict computed by Checker.Check once a pattern matched. -/
def checkResult (now : Int) (file : FileInfo) (pat : Pattern) : RecertCheckResult :=
  let daysSince := daysSinceFn now file.lastModified
  let threshold := pat.recertificationDays
  let needsRecert : Bool := daysSince ≥ threshold
  { file := file
    patternName := pat.name
    daysSince := daysSince
    threshold := threshold
    priority := priorityFor daysSince threshold needsRecert
    needsRecert := needsRecert
    nextDueDate := file.lastModified + threshold * nsPerDay }

/-- Checker.Check: files with no matching enabled pattern are dropped, the rest
get a verdict.  now is the value the ambient clock (time.Since) reads during
the call. -/
def check (pm : PathMatcher) (now : Int) (files : List FileInfo)
    (patterns : List Pattern) : List RecertCheckResult :=
  files.filterMap (fun f => (firstMatch pm patterns f.path).map (checkResult now f))

/-! ## History enrichment (internal/scan, HistoryAnalyzer.Enrich) -/

/-- The stale verdicts: every strategy skips results with NeedsRecert false. -/
def staleOf (results : List RecertCheckResult) : List RecertCheckResult :=
  results.filter (fun r => r.needsRecert)

/-- PerFileStrategy.Group. -/
def perFileGroups (results : List RecertCheckResult) : List FileGroup :=
  (staleOf results).map (fun r =>
    { id := "file-" ++ r.file.path, strategy := "per_file", files := [r] })

/-- Common shape of PerPatternStrategy.Group and PerCommitterStrategy.Group: a
Go map from key to slice, then one group per key.  Go map iteration order is
unspecified; the embedding lists keys in a fixed deduplicated order, and only
order-insensitive properties are proved about it. -/
def groupedBy (key : RecertCheckResult → String) (idPre strategyName : String)
    (results : List RecertCheckResult) : List FileGroup :=
  ((staleOf results).map key).dedup.map (fun k =>
    { id := idPre ++ k, strategy := strategyName,
      files := (staleOf results).filter (fun r => key r == k) })

/-- PerPatternStrategy.Group. -/
def perPatternGroups (results : List RecertCheckResult) : List FileGroup :=
  groupedBy (fun r => r.patternName) "pattern-" "per_pattern" results

/-- The author key of PerCommitterStrategy.Group: empty author becomes
"unknown". -/
def keyAuthor (r : RecertCheckResult) : String :=
  if r.file.commitAuthor = "" then "unknown" else r.file.commitAuthor

/-- PerCommitterStrategy.Group. -/
def perCommitterGroups (results : List RecertCheckResult) : List FileGroup :=
  groupedBy keyAuthor "author-" "per_committer" results

/-- SinglePRStrategy.Group. -/
def singlePRGroups (results : List RecertCheckResult) : List FileGroup :=
  if (staleOf results).isEmpty then []
  else [{ id := "all-files", strategy := "single_pr", files := staleOf results }]

/-- config.PRStrategyConfig (internal/config/types.go). -/
structure PRStrategyConfig where
  type : String
  maxFilesPerPR : Int
  pluginName : String
deriving DecidableEq, Repr

/-- The four non-plugin strategies NewStrategy can return. -/
inductive StrategyChoice
  | perFile
  | perPattern
  | perCommitter
  | singlePR
deriving DecidableEq, Repr

/-- strategy.NewStrategy.  Note that cfg.maxFilesPerPR is never consulted. -/
def newStrategy (cfg : PRStrategyConfig) : Except String StrategyChoice :=
  if cfg.type = "per_file" then .ok .perFile
  else if cfg.type = "per_pattern" then .ok .perPattern
  else if cfg.type = "per_committer" then .ok .perCommitter
  else if cfg.type = "single_pr" then .ok .singlePR
  else if cfg.type = "plugin" then .error "plugin strategy not implemented yet"
  else .error ("unknown strategy type: " ++ cfg.type)

/-- Dispatch of Strategy.Group over the chosen strategy. -/
def runGroup : StrategyChoice → List RecertCheckResult → List FileGroup
  | .perFile, rs => perFileGroups rs
  | .perPattern, rs => perPatternGroups rs
  | .perCommitter, rs => perCommitterGroups rs
  | .singlePR, rs => singlePRGroups rs

/-! ## Assignment resolution (internal/assign/resolver.go) -/

/-- config.AssignmentRule (internal/config/types.go). -/
structure AssignmentRule where
  pattern : String
  strategy : String
  plugin : String
  fallbackAssignees : List String
deriving DecidableEq, Repr

/-- config.AssignmentConfig (internal/config/types.go). -/
structure AssignmentConfig where
  strategy : String
  rules : List AssignmentRule
  fallbackAssignees : List String
  pluginName : String
deriving DecidableEq, Repr

/-- An assignment plugin's Resolve method. -/
def AssignPluginFn : Type := List FileInfo → Except String AssignmentResult

/-- plugin.Manager.GetAssignmentPlugin, as an oracle: none models both its
error cases (name not registered, or not an assignment plugin). -/
def PluginLookup : Type := String → Option AssignPluginFn

/-- One iteration of the last_committer loop of Resolver.Resolve: the running
(lastAuthor, lastTime) pair starts at ("", zero time) and is replaced when the
file has a non-empty author and a LastModified strictly after lastTime. -/
def lcStep (acc : String × Int) (r : RecertCheckResult) : String × Int :=
  if r.file.commitAuthor ≠ "" ∧ acc.2 < r.file.lastModified then
    (r.file.commitAuthor, r.file.lastModified)
  else acc

/-- The assignee list the last_committer branch of Resolver.Resolve builds. -/
def lastCommitterAssignees (files : List RecertCheckResult) : List String :=
  let acc := files.foldl lcStep ("", 0)
  if acc.1 = "" then [] else [acc.1]

/-- Resolver.Resolve.  The switch has cases for static, last_committer and
plugin; composite (and any other string) falls through to the default case,
which returns the fallback assignees.  Only the plugin case can fail. -/
def resolve (pm : PluginLookup) (cfg : AssignmentConfig) (group : FileGroup) :
    Except String AssignmentResult :=
  if cfg.strategy = "static" then
    .ok { assignees := cfg.fallbackAssignees, reviewers := [], team := "", priority := "" }
  else if cfg.strategy = "last_committer" then
    .ok { assignees := lastCommitterAssignees group.files, reviewers := [], team := "",
          priority := "" }
  else if cfg.strategy = "plugin" then
    match pm cfg.pluginName with
    | none => .error ("plugin not found: " ++ cfg.pluginName)
    | some f =>
      match f (group.files.map (fun r => r.file)) with
      | .error e => .error e
      | .ok r => .ok r
  else
    .ok { assignees := cfg.fallbackAssignees, reviewers := [], team := "", priority := "" }

/-! ## Orchestrator materialization (internal/engine/engine.go, processGroup) -/

/-- The gateway calls Engine.processGroup can issue, with their arguments. -/
inductive GatewayCall
  | branchExistsCheck (branch : String)
  | createBranch (branch base : String)
  | createCommit (branch : String)
  | prExistsCheck (head base : String)
  | createPullRequest (head : String)
deriving DecidableEq, Repr

/-- Whether a gateway call mutates remote state (everything except the two
existence checks). -/
def isMutating : GatewayCall → Bool
  | .branchExistsCheck _ => false
  | .prExistsCheck _ _ => false
  | _ => true

/-- The provider gateway as a response oracle for one processGroup run. -/
structure GatewayBehavior where
  branchExists : String → Except String Bool
  createBranch : String → String → Except String Unit
  createCommit : String → Except String String
  pullRequestExists : String → String → Except String Bool
  createPullRequest : String → Except String Unit

/-- The branch name pr.Generator.Generate (internal/pr) assigns to a group:
branchName := fmt.Sprintf("recert/%s", group.ID).  Generate always returns a
nil error and its title/description strings never reach the gateway, so only
this branch name matters to the processGroup call trace. -/
def branchName (group : FileGroup) : String :=
  "recert/" ++ group.id

/-- The base-branch default of processGroup: cfg.Global.DefaultBaseBranch, or
"main" when unset. -/
def resolveBase (defaultBaseBranch : String) : String :=
  if defaultBaseBranch = "" then "main" else defaultBaseBranch

/-- The tail of processGroup after the branch is known to exist: an
unconditional CreateCommit, then the PR existence check, then CreatePullRequest
only when no PR exists.  Returns the outcome and appends the calls issued. -/
def commitAndPR (gw : GatewayBehavior) (branch base : String)
    (calls : List GatewayCall) : Except String Unit × List GatewayCall :=
  match gw.createCommit branch with
  | .error e => (.error e, calls ++ [.createCommit branch])
  | .ok _ =>
    match gw.pullRequestExists branch base with
    | .error e => (.error e, calls ++ [.createCommit branch, .prExistsCheck branch base])
    | .ok true => (.ok (), calls ++ [.createCommit branch, .prExistsCheck branch base])
    | .ok false =>
      match gw.createPullRequest branch with
      | .error e =>
        (.error e, calls ++ [.createCommit branch, .prExistsCheck branch base,
                             .createPullRequest branch])
      | .ok _ =>
        (.ok (), calls ++ [.createCommit branch, .prExistsCheck branch base,
                           .createPullRequest branch])

/-- Engine.processGroup: assignment resolution (failure fails the unit), the
dry-run early return, then BranchExists / CreateBranch / CreateCommit /
PullRequestExists / CreatePullRequest against the gateway.  The decorator
change preparation touches no gateway and does not affect the call trace, so
its file contents are not modelled.  resolved is the outcome of
Resolver.Resolve for this group. -/
def processGroup (gw : GatewayBehavior) (resolved : Except String AssignmentResult)
    (dryRun : Bool) (defaultBaseBranch : String) (group : FileGroup) :
    Except String Unit × List GatewayCall :=
  match resolved with
  | .error e => (.error e, [])
  | .ok _ =>
    if dryRun then (.ok (), [])
    else
      let branch := branchName group
      let base := resolveBase defaultBaseBranch
      match gw.branchExists branch with
      | .error e => (.error e, [.branchExistsCheck branch])
      | .ok true => commitAndPR gw branch base [.branchExistsCheck branch]
      | .ok false =>
        match gw.createBranch branch base with
        | .error e => (.error e, [.branchExistsCheck branch, .createBranch branch base])
        | .ok _ =>
          commitAndPR gw branch base
            [.branchExistsCheck branch, .createBranch branch base]

/-! ## GitLab provider (internal/provider/gitlab.go, CreateCommit) -/

/-- A gitlab.CommitAction as built by GitLabProvider.CreateCommit. -/
structure CommitAction where
  action : String
  filePath : String
  content : String
  encoding : String
deriving DecidableEq, Repr

/-- The action list GitLabProvider.CreateCommit submits: every change becomes
a gitlab.FileCreate ("create") action, never update or delete. -/
def gitlabCommitActions (changes : List Change) : List CommitAction :=
  changes.map (fun change =>
    { action := "create", filePath := change.path, content := change.content,
      encoding := "text" })

/-- Modelled from the spec: the atomic action-list backend (GitLab commits API)
accepts an ordered list of create/update/delete actions; a create action on a
path that already exists on the target branch rejects the commit as a whole.
existingPaths are the paths present on the branch. -/
def gitlabApplyActions (existingPaths : List String) (actions : List CommitAction) :
    Except String Unit :=
  if actions.any (fun a => a.action == "create" && existingPaths.contains a.filePath) then
    .error "A file with this name already exists"
  else .ok ()

/-! ## Specification-side reference definitions (written from the spec/claim
wording, to be compared with the source embeddings above) -/

/-- Modelled from the spec: the composite assignment strategy as section 4.4
describes it (the source's composite branch is unimplemented): match the unit
against the ordered rules — a unit matches a rule when any file in it matches
the rule's glob — and apply the first matching rule's strategy; when no rule
matches, yield the fallback assignees. -/
def resolveCompositeClaim (pm : PluginLookup) (matcher : PathMatcher)
    (cfg : AssignmentConfig) (group : FileGroup) : Except String AssignmentResult :=
  match cfg.rules.find? (fun rule =>
      group.files.any (fun r => matcher rule.pattern r.file.path)) with
  | some rule =>
    resolve pm { strategy := rule.strategy, rules := [],
                 fallbackAssignees := cfg.fallbackAssignees, pluginName := rule.plugin }
      group
  | none =>
    .ok { assignees := cfg.fallbackAssignees, reviewers := [], team := "", priority := "" }

/-- Whether r would win the last_committer scan against a running timestamp t:
non-empty author, LastModified strictly after t, and no file of the list with
a non-empty author has a strictly later LastModified. -/
def lcDominates (files : List RecertCheckResult) (r : RecertCheckResult) : Bool :=
  files.all (fun g =>
    (g.file.commitAuthor == "") || decide (g.file.lastModified ≤ r.file.lastModified))

/-- The selection predicate of the last_committer characterization: candidate
(non-empty author), strictly after t, and maximal among the list's authored
files. -/
def lcPick (t : Int) (files : List RecertCheckResult) (r : RecertCheckResult) : Bool :=
  (r.file.commitAuthor != "") && decide (t < r.file.lastModified) && lcDominates files r

/-- The last_committer outcome as the amended claim states it: the author of
the first-seen file that has a non-empty author, a LastModified strictly after
the Go zero time, and the maximal LastModified among the unit's authored
files; empty when no such file exists. -/
def lastCommitterSpec (files : List RecertCheckResult) : List String :=
  match files.find? (lcPick 0 files) with
  | some r => [r.file.commitAuthor]
  | none => []

/-! ## Concrete fixtures used by counterexamples and witnesses -/

/-- A path matcher that matches every pattern against every path. -/
def matcherAll : PathMatcher := fun _ _ => true

/-- A plugin lookup with no plugins registered. -/
def pmNone : PluginLookup := fun _ => none

/-- A gateway on which the branch and the PR already exist and every call
succeeds. -/
def gwAllExists : GatewayBehavior :=
  { branchExists := fun _ => .ok true
    createBranch := fun _ _ => .ok ()
    createCommit := fun _ => .ok "sha"
    pullRequestExists := fun _ _ => .ok true
    createPullRequest := fun _ => .ok () }

/-- A resolved assignment outcome. -/
def resOk : AssignmentResult :=
  { assignees := ["user1"], reviewers := [], team := "", priority := "" }

/-- A file whose history enrichment never ran: zero LastModified, no commit
metadata. -/
def fileZero : FileInfo :=
  { path := "main.tf", size := 10, lastModified := 0, commitHash := "",
    commitAuthor := "", commitEmail := "", commitMsg := "" }

/-- A file last modified by alice shortly after the zero time. -/
def fileAlice : FileInfo :=
  { path := "main.tf", size := 10, lastModified := 5, commitHash := "h1",
    commitAuthor := "alice", commitEmail := "a@example.com", commitMsg := "init" }

/-- A file authored by alice whose LastModified is exactly the Go zero time. -/
def fileAliceZero : FileInfo :=
  { path := "main.tf", size := 10, lastModified := 0, commitHash := "h1",
    commitAuthor := "alice", commitEmail := "a@example.com", commitMsg := "init" }

/-- The terraform pattern of the repository's tests: 60-day threshold. -/
def patTf : Pattern :=
  { name := "terraform", paths := ["**/*.tf"], exclude := [], recertificationDays := 60,
    enabled := true }

/-- A stale verdict over fileAlice. -/
def vAlice : RecertCheckResult :=
  { file := fileAlice, patternName := "terraform", daysSince := 100, threshold := 60,
    priority := "Critical", needsRecert := true, nextDueDate := 0 }

/-- A stale verdict over fileZero. -/
def vZero : RecertCheckResult :=
  { file := fileZero, patternName := "terraform", daysSince := 100, threshold := 60,
    priority := "Critical", needsRecert := true, nextDueDate := 0 }

/-- A stale verdict over a file authored by alice at the zero time. -/
def vAliceZero : RecertCheckResult :=
  { file := fileAliceZero, patternName := "terraform", daysSince := 100, threshold := 60,
    priority := "Critical", needsRecert := true, nextDueDate := 0 }

/-- A single-unit group holding vAlice. -/
def grpAlice : FileGroup :=
  { id := "pattern-terraform", strategy := "per_pattern", files := [vAlice] }

/-- A single-unit group whose only file is authored but zero-stamped. -/
def grpAliceZero : FileGroup :=
  { id := "author-alice", strategy := "per_committer", files := [vAliceZero] }

/-- An assignment configuration using the plugin strategy with an unregistered
plugin name. -/
def cfgPlugin : AssignmentConfig :=
  { strategy := "plugin", rules := [], fallbackAssignees := ["fb"], pluginName := "snow" }

/-- A composite assignment configuration with one catch-all last_committer
rule. -/
def cfgComp : AssignmentConfig :=
  { strategy := "composite",
    rules := [{ pattern := "**", strategy := "last_committer", plugin := "",
                fallbackAssignees := [] }],
    fallbackAssignees := ["fb"], pluginName := "" }

/-- A last_committer assignment configuration. -/
def cfgLC : AssignmentConfig :=
  { strategy := "last_committer", rules := [], fallbackAssignees := ["fb"],
    pluginName := "" }

/-! ## Theorems -/

/-- C10: every per-file change of a GitLab commit is submitted with the action
create (gitlab.FileCreate), never update or delete; and, against the modelled
action-list backend, a commit whose change targets a path already present on
the branch fails. -/
theorem c10_gitlab_actions_all_create (changes : List Change) :
    ((gitlabCommitActions changes).all (fun a => a.action == "create")) = true ∧
    gitlabApplyActions ["existing.tf"]
        (gitlabCommitActions [{ path := "existing.tf", content := "refreshed" }]) =
      .error "A file with this name already exists" := by
  refine ⟨by simp [gitlabCommitActions, List.all_map, Function.comp_def], rfl⟩

/-- C7: the max_files_per_pr cap is never consulted by NewStrategy or any
strategy: with cap 1 and two stale verdicts, single_pr yields one unsplit unit
holding both files, in violation of the documented maximum. -/
theorem c7_cap_ignored :
    newStrategy { type := "single_pr", maxFilesPerPR := 1, pluginName := "" } =
      .ok .singlePR ∧
    runGroup .singlePR [vAlice, vZero] =
      [{ id := "all-files", strategy := "single_pr", files := [vAlice, vZero] }] ∧
    ¬ (([{ id := "all-files", strategy := "single_pr",
           files := [vAlice, vZero] }] : List FileGroup).all
        (fun g => g.files.length ≤ 1) = true) := by
  refine ⟨rfl, rfl, by decide⟩

/-- C1 counterexample: on a gateway where the unit's branch and PR both exist,
a non-dry-run processGroup still issues a mutating call (the unconditional
CreateCommit), so the trace is not limited to the two existence checks. -/
theorem c1_rerun_claim_counterexample :
    ((processGroup gwAllExists (.ok resOk) false "main"
        { id := "all-files", strategy := "single_pr", files := [] }).2.filter
          (fun c => isMutating c)) ≠ [] := by
  decide

/-- C1 (amended): re-running materialization for a unit whose branch and PR
already exist issues no CreateBranch and no CreatePullRequest; the trace is
exactly the branch existence check, one mutating CreateCommit, and the PR
existence check. -/
theorem c1_rerun_only_commit_mutates
    (gw : GatewayBehavior) (r : AssignmentResult) (defBase : String)
    (group : FileGroup) (sha : String)
    (hb : gw.branchExists (branchName group) = .ok true)
    (hc : gw.createCommit (branchName group) = .ok sha)
    (hp : gw.pullRequestExists (branchName group) (resolveBase defBase) = .ok true) :
    processGroup gw (.ok r) false defBase group =
      (.ok (), [.branchExistsCheck (branchName group),
                .createCommit (branchName group),
                .prExistsCheck (branchName group) (resolveBase defBase)]) := by
  simp [processGroup, commitAndPR, hb, hc, hp]

/-- C1 witness: the amended statement at a concrete gateway and unit. -/
theorem c1_witness :
    processGroup gwAllExists (.ok resOk) false "main"
        { id := "all-files", strategy := "single_pr", files := [] } =
      (.ok (), [.branchExistsCheck "recert/all-files",
                .createCommit "recert/all-files",
                .prExistsCheck "recert/all-files" "main"]) :=
  c1_rerun_only_commit_mutates gwAllExists resOk "main"
    { id := "all-files", strategy := "single_pr", files := [] } "sha" rfl rfl rfl

/-- C4 counterexample: under the plugin strategy a failed plugin lookup makes
Resolve return an error instead of the fallback assignees, and processGroup
then fails the unit because of assignment. -/
theorem c4_plugin_error_counterexample :
    resolve pmNone cfgPlugin grpAlice = .error "plugin not found: snow" ∧
    processGroup gwAllExists (resolve pmNone cfgPlugin grpAlice) false "main" grpAlice =
      (.error "plugin not found: snow", []) := by
  refine ⟨rfl, rfl⟩

/-- C4 (amended): for every strategy other than plugin, Resolve never returns
an error (static, last_committer, composite and unknown strategies all return
a result); only the plugin branch can propagate an error. -/
theorem c4_nonplugin_resolve_total
    (pm : PluginLookup) (cfg : AssignmentConfig) (group : FileGroup)
    (h : cfg.strategy ≠ "plugin") :
    (resolve pm cfg group).isOk = true := by
  by_cases h1 : cfg.strategy = "static"
  · simp [resolve, h1, Except.isOk, Except.toBool]
  · by_cases h2 : cfg.strategy = "last_committer"
    · simp [resolve, h1, h2, Except.isOk, Except.toBool]
    · simp [resolve, h1, h2, h, Except.isOk, Except.toBool]

/-- C4 witness: the amended statement at the static strategy. -/
theorem c4_witness :
    (resolve pmNone
        { strategy := "static", rules := [], fallbackAssignees := ["fb"],
          pluginName := "" } grpAlice).isOk = true :=
  c4_nonplugin_resolve_total pmNone
    { strategy := "static", rules := [], fallbackAssignees := ["fb"], pluginName := "" }
    grpAlice (by decide)

/-- C5 counterexample: with a composite configuration whose first rule matches
the unit and selects last_committer, the source's Resolve still returns the
fallback assignees, while the spec-modelled composite resolution applies the
rule and returns the last committer. -/
theorem c5_composite_counterexample :
    resolve pmNone cfgComp grpAlice =
      .ok { assignees := ["fb"], reviewers := [], team := "", priority := "" } ∧
    resolveCompositeClaim pmNone matcherAll cfgComp grpAlice =
      .ok { assignees := ["alice"], reviewers := [], team := "", priority := "" } ∧
    (["fb"] : List String) ≠ ["alice"] := by
  refine ⟨rfl, rfl, by decide⟩

/-- C5 (amended): under the composite strategy the source ignores the rules
entirely and always yields the fallback assignees (which are non-empty
whenever the configured fallback list is non-empty). -/
theorem c5_composite_always_fallback
    (pm : PluginLookup) (cfg : AssignmentConfig) (group : FileGroup)
    (h : cfg.strategy = "composite") :
    resolve pm cfg group =
      .ok { assignees := cfg.fallbackAssignees, reviewers := [], team := "",
            priority := "" } := by
  simp [resolve, h]

/-- C5 witness: the amended statement at the concrete composite fixture. -/
theorem c5_witness :
    resolve pmNone cfgComp grpAlice =
      .ok { assignees := cfgComp.fallbackAssignees, reviewers := [], team := "",
            priority := "" } :=
  c5_composite_always_fallback pmNone cfgComp grpAlice rfl

/-- C9 counterexample: Checker.Check derives daysSince from the ambient clock
(time.Since), so the same file and policy evaluated at two wall-clock instants
(59 days vs 61 days after the file's timestamp, around a 60-day threshold)
produce different verdicts. -/
theorem c9_ambient_clock_counterexample :
    check matcherAll (59 * nsPerDay) [fileZero] [patTf] ≠
      check matcherAll (61 * nsPerDay) [fileZero] [patTf] := by
  decide

/-- C9 (amended): staleness evaluation is a deterministic function of (file,
policy, clock reading); the clock reading is taken from the ambient clock, not
injected, and a verdict depends on it exactly through the whole-day count
daysSince: evaluations whose clock readings give every file the same day count
yield identical verdict lists. -/
theorem c9_verdict_depends_only_on_daycount
    (pm : PathMatcher) (t1 t2 : Int) (files : List FileInfo) (patterns : List Pattern)
    (h : ∀ f ∈ files, daysSinceFn t1 f.lastModified = daysSinceFn t2 f.lastModified) :
    check pm t1 files patterns = check pm t2 files patterns := by
  induction files with
  | nil => rfl
  | cons f fs ih =>
    have hf := h f (List.mem_cons_self f fs)
    have hfs := ih (fun g hg => h g (List.mem_cons_of_mem f hg))
    simp only [check, List.filterMap_cons] at hfs ⊢
    rw [hfs]
    have hcr : ∀ pat, checkResult t1 f pat = checkResult t2 f pat := by
      intro pat
      unfold checkResult
      rw [hf]
    cases firstMatch pm patterns f.path with
    | none => rfl
    | some pat => simp [hcr pat]

/-- C9 witness: two evaluations on the same day (clock readings 60 days plus 5
ns and plus 7 ns) yield the same verdicts. -/
theorem c9_witness :
    check matcherAll (60 * nsPerDay + 5) [fileZero] [patTf] =
      check matcherAll (60 * nsPerDay + 7) [fileZero] [patTf] :=
  c9_verdict_depends_only_on_daycount matcherAll (60 * nsPerDay + 5)
    (60 * nsPerDay + 7) [fileZero] [patTf] (by decide)

/-- Every element of staleOf needs recertification. -/
theorem mem_staleOf_needsRecert (results : List RecertCheckResult) :
    ∀ r ∈ staleOf results, r.needsRecert = true := by
  intro r hr
  exact (List.mem_filter.mp hr).2

/-- Summing the per-key occurrence counts of v over a duplicate-free key list
gives v's count when its key is listed and zero otherwise. -/
theorem countKeyed (key : RecertCheckResult → String) (rs : List RecertCheckResult)
    (v : RecertCheckResult) :
    ∀ keys : List String, keys.Nodup →
      (keys.map (fun k => ((rs.filter (fun r => key r == k)).count v))).sum
        = if key v ∈ keys then rs.count v else 0 := by
  intro keys
  induction keys with
  | nil => simp
  | cons k ks ih =>
    intro hnd
    obtain ⟨hk, hks⟩ := List.nodup_cons.mp hnd
    simp only [List.map_cons, List.sum_cons, ih hks]
    by_cases hv : key v = k
    · have hnotin : key v ∉ ks := by rw [hv]; exact hk
      have hcount : (rs.filter (fun r => key r == k)).count v = rs.count v := by
        apply List.count_filter
        simp [hv]
      rw [hcount, if_neg hnotin, if_pos (show key v ∈ k :: ks by simp [hv])]
      omega
    · have hcount : (rs.filter (fun r => key r == k)).count v = 0 := by
        apply List.count_eq_zero.mpr
        intro hmem
        have h2 := (List.mem_filter.mp hmem).2
        simp only [beq_iff_eq] at h2
        exact hv h2
      simp [hcount, hv, List.mem_cons]

/-- The files of a keyed grouping, flattened, hold each verdict exactly as
often as the stale list does. -/
theorem count_groupedBy (key : RecertCheckResult → String) (idPre strat : String)
    (results : List RecertCheckResult) (v : RecertCheckResult) :
    (((groupedBy key idPre strat results).flatMap (fun g => g.files)).count v)
      = ((staleOf results).count v) := by
  unfold groupedBy
  rw [List.count_flatMap, List.map_map]
  have hsum := countKeyed key (staleOf results) v
    (((staleOf results).map key).dedup) (List.nodup_dedup _)
  simp only [Function.comp_def] at hsum ⊢
  rw [hsum]
  by_cases hin : key v ∈ ((staleOf results).map key).dedup
  · simp [hin]
  · have hnot : v ∉ staleOf results := fun hv =>
      hin (List.mem_dedup.mpr (List.mem_map_of_mem key hv))
    simp [hin, List.count_eq_zero.mpr hnot]

/-- A keyed grouping's flattened files are a permutation of the stale list. -/
theorem perm_groupedBy (key : RecertCheckResult → String) (idPre strat : String)
    (results : List RecertCheckResult) :
    ((groupedBy key idPre strat results).flatMap (fun g => g.files)).Perm
      (staleOf results) :=
  List.perm_iff_count.mpr (fun v => count_groupedBy key idPre strat results v)

/-- Flattening one-element groups over a list gives the list back. -/
theorem flatMap_singleton_groups (s : String) (f : RecertCheckResult → String) :
    ∀ l : List RecertCheckResult,
      ((l.map (fun r =>
          ({ id := f r, strategy := s, files := [r] } : FileGroup))).flatMap
        (fun g => g.files)) = l := by
  intro l
  induction l with
  | nil => rfl
  | cons r rs ih => simp_all

/-- C3: each non-plugin grouping strategy partitions the stale verdicts: the
multiset union of the units' files is exactly the stale-verdict list (so every
stale verdict lands in exactly one unit and none twice), and no unit contains
a verdict that does not need recertification. -/
theorem c3_grouping_partition (results : List RecertCheckResult) :
    ((perFileGroups results).flatMap (fun g => g.files)).Perm (staleOf results) ∧
    ((perPatternGroups results).flatMap (fun g => g.files)).Perm (staleOf results) ∧
    ((perCommitterGroups results).flatMap (fun g => g.files)).Perm (staleOf results) ∧
    ((singlePRGroups results).flatMap (fun g => g.files)).Perm (staleOf results) ∧
    (perFileGroups results).all (fun g => g.files.all (fun r => r.needsRecert)) = true ∧
    (perPatternGroups results).all (fun g => g.files.all (fun r => r.needsRecert)) = true ∧
    (perCommitterGroups results).all
      (fun g => g.files.all (fun r => r.needsRecert)) = true ∧
    (singlePRGroups results).all (fun g => g.files.all (fun r => r.needsRecert)) = true := by
  have hstale := mem_staleOf_needsRecert results
  have hsingle :
      ((singlePRGroups results).flatMap (fun g => g.files)) = staleOf results := by
    unfold singlePRGroups
    by_cases he : (staleOf results).isEmpty
    · simp [he, List.isEmpty_iff.mp he]
    · simp [he]
  refine ⟨?_, perm_groupedBy _ _ _ results, perm_groupedBy _ _ _ results,
    hsingle ▸ List.Perm.refl _, ?_, ?_, ?_, ?_⟩
  · rw [perFileGroups, flatMap_singleton_groups]
  · rw [List.all_eq_true]
    intro g hg
    obtain ⟨r, hr, hgr⟩ := List.mem_map.mp hg
    subst hgr
    simp [hstale r hr]
  · rw [List.all_eq_true]
    intro g hg
    obtain ⟨k, _, hgk⟩ := List.mem_map.mp hg
    subst hgk
    rw [List.all_eq_true]
    intro r hr
    exact hstale r (List.mem_of_mem_filter hr)
  · rw [List.all_eq_true]
    intro g hg
    obtain ⟨k, _, hgk⟩ := List.mem_map.mp hg
    subst hgk
    rw [List.all_eq_true]
    intro r hr
    exact hstale r (List.mem_of_mem_filter hr)
  · rw [List.all_eq_true]
    intro g hg
    unfold singlePRGroups at hg
    by_cases he : (staleOf results).isEmpty
    · simp [he] at hg
    · simp only [he, if_neg, Bool.false_eq_true, not_false_eq_true,
        List.mem_singleton] at hg
      subst hg
      rw [List.all_eq_true]
      intro r hr
      exact hstale r hr

/-- Pointwise equal predicates find the same element. -/
theorem find?_ext {α : Type} (p q : α → Bool) :
    ∀ l : List α, (∀ x ∈ l, p x = q x) → l.find? p = l.find? q := by
  intro l
  induction l with
  | nil => intro _; rfl
  | cons x xs ih =>
    intro h
    have hx := h x (List.mem_cons_self x xs)
    cases hqx : q x with
    | true =>
      rw [List.find?_cons_of_pos xs (hx.trans hqx), List.find?_cons_of_pos xs hqx]
    | false =>
      rw [List.find?_cons_of_neg xs (by rw [hx, hqx]; exact Bool.false_ne_true),
          List.find?_cons_of_neg xs (by rw [hqx]; exact Bool.false_ne_true)]
      exact ih (fun y hy => h y (List.mem_cons_of_mem x hy))

/-- A list with an authored element has an authored element of maximal
LastModified. -/
theorem exists_max_authored :
    ∀ fs : List RecertCheckResult, (∃ r ∈ fs, r.file.commitAuthor ≠ "") →
      ∃ m ∈ fs, m.file.commitAuthor ≠ "" ∧
        ∀ g ∈ fs, g.file.commitAuthor ≠ "" →
          g.file.lastModified ≤ m.file.lastModified := by
  intro fs
  induction fs with
  | nil =>
    rintro ⟨r, hr, _⟩
    cases hr
  | cons f fs ih =>
    intro hex
    by_cases hfs : ∃ r ∈ fs, r.file.commitAuthor ≠ ""
    · obtain ⟨m, hm, hma, hmax⟩ := ih hfs
      by_cases hcmp : f.file.lastModified ≤ m.file.lastModified
      · refine ⟨m, List.mem_cons_of_mem f hm, hma, ?_⟩
        intro g hg hga
        rcases List.mem_cons.mp hg with heq | hg2
        · subst heq; exact hcmp
        · exact hmax g hg2 hga
      · by_cases hfa : f.file.commitAuthor = ""
        · refine ⟨m, List.mem_cons_of_mem f hm, hma, ?_⟩
          intro g hg hga
          rcases List.mem_cons.mp hg with heq | hg2
          · subst heq; exact absurd hfa hga
          · exact hmax g hg2 hga
        · refine ⟨f, List.mem_cons_self f fs, hfa, ?_⟩
          intro g hg hga
          rcases List.mem_cons.mp hg with heq | hg2
          · subst heq; exact le_refl _
          · exact le_trans (hmax g hg2 hga) (le_of_not_le hcmp)
    · obtain ⟨r, hr, hra⟩ := hex
      rcases List.mem_cons.mp hr with heq | hr2
      · subst heq
        refine ⟨r, List.mem_cons_self r fs, hra, ?_⟩
        intro g hg hga
        rcases List.mem_cons.mp hg with heq2 | hg2
        · subst heq2; exact le_refl _
        · exact absurd ⟨g, hg2, hga⟩ hfs
      · exact absurd ⟨r, hr2, hra⟩ hfs

/-- The last_committer scan started at accumulator (a, t) ends at the first
candidate strictly after t that dominates the list, and keeps (a, t) when
there is none. -/
theorem lcFold_char :
    ∀ (files : List RecertCheckResult) (a : String) (t : Int),
      files.foldl lcStep (a, t) =
        (match files.find? (lcPick t files) with
         | some r => (r.file.commitAuthor, r.file.lastModified)
         | none => (a, t)) := by
  intro files
  induction files with
  | nil =>
    intro a t
    rfl
  | cons f fs ih =>
    intro a t
    rw [List.foldl_cons]
    by_cases hupd : f.file.commitAuthor ≠ "" ∧ t < f.file.lastModified
    · rw [show lcStep (a, t) f = (f.file.commitAuthor, f.file.lastModified) by
        simp [lcStep, hupd]]
      rw [ih]
      by_cases hbeat : ∃ b ∈ fs, b.file.commitAuthor ≠ "" ∧
          f.file.lastModified < b.file.lastModified
      · obtain ⟨b, hbmem, hbauth, hbtime⟩ := hbeat
        have hdomf : lcDominates (f :: fs) f = false := by
          apply Bool.eq_false_iff.mpr
          intro hall
          rw [lcDominates, List.all_eq_true] at hall
          have hb := hall b (List.mem_cons_of_mem f hbmem)
          rw [Bool.or_eq_true, beq_iff_eq, decide_eq_true_eq] at hb
          rcases hb with hb | hb
          · exact hbauth hb
          · exact absurd hb (not_le.mpr hbtime)
        have hffalse : lcPick t (f :: fs) f = false := by
          simp [lcPick, hdomf]
        rw [List.find?_cons_of_neg fs (by rw [hffalse]; exact Bool.false_ne_true)]
        have hagree : ∀ x ∈ fs,
            lcPick f.file.lastModified fs x = lcPick t (f :: fs) x := by
          intro x hx
          by_cases hax : x.file.commitAuthor = ""
          · simp [lcPick, hax]
          · cases hdx : lcDominates fs x with
            | false =>
              have hdcons : lcDominates (f :: fs) x = false := by
                rw [lcDominates, List.all_cons]
                rw [lcDominates] at hdx
                simp [hdx]
              simp [lcPick, hdx, hdcons]
            | true =>
              have hbx : b.file.lastModified ≤ x.file.lastModified := by
                rw [lcDominates, List.all_eq_true] at hdx
                have hb := hdx b hbmem
                rw [Bool.or_eq_true, beq_iff_eq, decide_eq_true_eq] at hb
                rcases hb with hb | hb
                · exact absurd hb hbauth
                · exact hb
              have hfx : f.file.lastModified < x.file.lastModified :=
                lt_of_lt_of_le hbtime hbx
              have hdcons : lcDominates (f :: fs) x = true := by
                rw [lcDominates, List.all_cons]
                rw [lcDominates] at hdx
                simp [hdx, le_of_lt hfx]
              simp [lcPick, hdx, hdcons, hax, hfx, lt_trans hupd.2 hfx]
        rw [find?_ext _ _ fs hagree]
        have hsome : ∃ y, fs.find? (lcPick t (f :: fs)) = some y := by
          have hexa : ∃ r ∈ fs, r.file.commitAuthor ≠ "" := ⟨b, hbmem, hbauth⟩
          obtain ⟨m, hm, hma, hmax⟩ := exists_max_authored fs hexa
          have hfm : f.file.lastModified < m.file.lastModified :=
            lt_of_lt_of_le hbtime (hmax b hbmem hbauth)
          have hpm : lcPick t (f :: fs) m = true := by
            have hdm : lcDominates (f :: fs) m = true := by
              rw [lcDominates, List.all_eq_true]
              intro g hg
              rcases List.mem_cons.mp hg with heq | hg2
              · subst heq
                simp [le_of_lt hfm]
              · by_cases hga : g.file.commitAuthor = ""
                · simp [hga]
                · simp [hmax g hg2 hga]
            simp [lcPick, hma, hdm, lt_trans hupd.2 hfm]
          exact Option.isSome_iff_exists.mp
            (List.find?_isSome.mpr ⟨m, hm, hpm⟩)
        obtain ⟨y, hy⟩ := hsome
        rw [hy]
      · push_neg at hbeat
        have hnone : fs.find? (lcPick f.file.lastModified fs) = none := by
          rw [List.find?_eq_none]
          intro x hx hpx
          rw [lcPick, Bool.and_eq_true, Bool.and_eq_true] at hpx
          obtain ⟨⟨hxa, hxt⟩, _⟩ := hpx
          rw [bne_iff_ne] at hxa
          rw [decide_eq_true_eq] at hxt
          exact absurd hxt (not_lt.mpr (hbeat x hx hxa))
        rw [hnone]
        have hdomf : lcDominates (f :: fs) f = true := by
          rw [lcDominates, List.all_eq_true]
          intro g hg
          rcases List.mem_cons.mp hg with heq | hg2
          · subst heq; simp
          · by_cases hga : g.file.commitAuthor = ""
            · simp [hga]
            · simp [hbeat g hg2 hga]
        have hftrue : lcPick t (f :: fs) f = true := by
          simp [lcPick, hupd.1, hupd.2, hdomf]
        rw [List.find?_cons_of_pos fs hftrue]
    · rw [show lcStep (a, t) f = (a, t) by simp [lcStep, hupd]]
      rw [ih]
      have hffalse : lcPick t (f :: fs) f = false := by
        rcases not_and_or.mp hupd with h | h
        · push_neg at h
          simp [lcPick, h]
        · simp [lcPick, h]
      have hagree : ∀ x ∈ fs, lcPick t fs x = lcPick t (f :: fs) x := by
        intro x hx
        by_cases hax : x.file.commitAuthor = ""
        · simp [lcPick, hax]
        · by_cases htx : t < x.file.lastModified
          · cases hdx : lcDominates fs x with
            | false =>
              have hdcons : lcDominates (f :: fs) x = false := by
                rw [lcDominates, List.all_cons]
                rw [lcDominates] at hdx
                simp [hdx]
              simp [lcPick, hdx, hdcons]
            | true =>
              have hpredf : f.file.commitAuthor = "" ∨
                  f.file.lastModified ≤ x.file.lastModified := by
                rcases not_and_or.mp hupd with h | h
                · left
                  push_neg at h
                  exact h
                · right
                  exact le_trans (not_lt.mp h) (le_of_lt htx)
              have hdcons : lcDominates (f :: fs) x = true := by
                rw [lcDominates, List.all_cons]
                rw [lcDominates] at hdx
                rcases hpredf with h | h
                · simp [hdx, h]
                · simp [hdx, h]
              simp [lcPick, hdx, hdcons]
          · simp [lcPick, htx]
      rw [List.find?_cons_of_neg fs (by rw [hffalse]; exact Bool.false_ne_true),
          find?_ext _ _ fs hagree]

/-- The last_committer loop computes exactly the claim-side selection. -/
theorem lastCommitter_eq_spec (files : List RecertCheckResult) :
    lastCommitterAssignees files = lastCommitterSpec files := by
  simp only [lastCommitterAssignees, lastCommitterSpec]
  rw [lcFold_char files "" 0]
  cases hf : files.find? (lcPick 0 files) with
  | none => simp
  | some r =>
    have hp := List.find?_some hf
    rw [lcPick, Bool.and_eq_true, Bool.and_eq_true] at hp
    obtain ⟨⟨hra, _⟩, _⟩ := hp
    rw [bne_iff_ne] at hra
    simp [hra]

/-- C6 counterexample: a unit whose only file is authored (by alice) but whose
LastModified is exactly the Go zero time gets an empty assignee list from
last_committer, although the unit does have author metadata (the loop's
After(zero) guard is strict). -/
theorem c6_zero_time_counterexample :
    resolve pmNone cfgLC grpAliceZero =
      .ok { assignees := [], reviewers := [], team := "", priority := "" } ∧
    grpAliceZero.files.any (fun r => r.file.commitAuthor != "") = true := by
  refine ⟨rfl, rfl⟩

/-- C6 (amended): under the last_committer strategy, Resolve returns exactly
one assignee: the author of the first-seen file among those with a non-empty
author and a LastModified strictly after the Go zero time that attains the
maximal LastModified among the unit's authored files; it returns an empty list
when no such file exists — in particular when no file has author metadata, but
also when every authored file carries the zero timestamp. -/
theorem c6_last_committer_characterization
    (pm : PluginLookup) (cfg : AssignmentConfig) (group : FileGroup)
    (h : cfg.strategy = "last_committer") :
    resolve pm cfg group =
      .ok { assignees := lastCommitterSpec group.files, reviewers := [],
            team := "", priority := "" } := by
  rw [← lastCommitter_eq_spec]
  simp [resolve, h]

/-- C6 witness: the amended statement at the last_committer fixture. -/
theorem c6_witness :
    resolve pmNone cfgLC grpAlice =
      .ok { assignees := lastCommitterSpec grpAlice.files, reviewers := [],
            team := "", priority := "" } :=
  c6_last_committer_characterization pmNone cfgLC grpAlice rfl

end IacRecert
